import Mathlib

/-!
Shallow embedding of the bolt workbench store (`app/lib/stores/workbench.ts`)
and its persistence layer (`app/lib/persistence/db.ts`).

JavaScript objects keyed by strings are modelled as insertion-ordered
association lists (`getKey` / `setKey`), JavaScript `Set`s as duplicate-free
lists (`setAdd` / `setDelete`), and promise-returning fallible operations as
`Except String`.  Parts of the repository that are imported by
`workbench.ts` but whose sources are not present (`EditorStore`,
`FilesStore`, `ActionRunner`, the archive codecs) are modelled from the
spec; each such definition carries a doc comment saying so.
-/

namespace Bolt

/-- Lookup in a JS object modelled as an association list
(first binding for the key wins). -/
def getKey {α : Type} : List (String × α) → String → Option α
  | [], _ => none
  | e :: es, k => if e.1 = k then some e.2 else getKey es k

/-- JS object update: an existing key is overwritten in place, a new key is
appended at the end (JS objects preserve insertion order). -/
def setKey {α : Type} : List (String × α) → String → α → List (String × α)
  | [], k, v => [(k, v)]
  | e :: es, k, v => if e.1 = k then (k, v) :: es else e :: setKey es k v

/-- JS `Set.add` on the duplicate-free list model. -/
def setAdd (l : List String) (x : String) : List String :=
  if x ∈ l then l else l ++ [x]

/-- JS `Set.delete` on the duplicate-free list model. -/
def setDelete (l : List String) (x : String) : List String :=
  l.filter (fun y => decide (y ≠ x))

/-- JS `String.prototype.endsWith`. -/
def jsEndsWith (s pat : String) : Bool :=
  pat.data.isSuffixOf s.data

/-- JS `String.prototype.split` with a single-character separator. -/
def splitOnChar (sep : Char) : List Char → List (List Char)
  | [] => [[]]
  | c :: cs =>
    match splitOnChar sep cs, decide (c = sep) with
    | r, true => [] :: r
    | [], false => [[c]]
    | s :: ss, false => (c :: s) :: ss

/-! ## Data model (`workbench.ts`) -/

/-- An action event delivered by the streaming transport
(`ActionCallbackData` from the message parser). -/
structure ActionCallbackData where
  messageId : String
  action : String
deriving DecidableEq

/-- Modelled from the spec: `ActionRunner` (source `~/lib/runtime/action-runner`
is not in the repository snapshot) owns a FIFO action queue; `addAction`
enqueues an action and `runAction` executes one.  We record both lists. -/
structure ActionRunner where
  queued : List ActionCallbackData
  executed : List ActionCallbackData
deriving DecidableEq

/-- Source ArtifactState from `workbench.ts`. -/
structure ArtifactState where
  id : String
  title : String
  closed : Bool
  runner : ActionRunner
deriving DecidableEq

/-- An artifact event delivered by the streaming transport. -/
structure ArtifactCallbackData where
  messageId : String
  title : String
  id : String
deriving DecidableEq

/-- The editor-facing projection of the currently open file
(`EditorDocument`, scroll position omitted as no claim mentions it). -/
structure EditorDocument where
  filePath : String
  value : String
deriving DecidableEq

/-- A `FileMap` entry: a file (content + binary flag) or a folder. -/
inductive Dirent where
  | file (content : String) (isBinary : Bool)
  | folder
deriving DecidableEq

/-- The portion of `WorkbenchStore` state the claims are about: the FileMap,
the editor's edit buffer (documents), the selected file, the unsaved-file
set, and the artifact registry. -/
structure WorkbenchState where
  files : List (String × Dirent)
  documents : List (String × String)
  selectedFile : Option String
  unsavedFiles : List String
  artifacts : List (String × ArtifactState)
  artifactIdList : List String
deriving DecidableEq

/-- Modelled from the spec: the `EditorStore`'s current document is derived
from the selected file and the edit buffer keyed by path. -/
def currentDocument (s : WorkbenchState) : Option EditorDocument :=
  match s.selectedFile with
  | none => none
  | some p =>
    match getKey s.documents p with
    | none => none
    | some v => some ⟨p, v⟩

/-- Modelled from the spec: `EditorStore.updateFile(path, newContent)` writes
into the edit buffer for `path` and does not touch the FileMap. -/
def updateFile (s : WorkbenchState) (filePath newContent : String) : WorkbenchState :=
  { s with documents := setKey s.documents filePath newContent }

/-- Source FilesStore.getFile(path)?.content: the stored content when the entry is
a file, otherwise `none`. -/
def getFileContent (files : List (String × Dirent)) (filePath : String) : Option String :=
  match getKey files filePath with
  | some (Dirent.file content _) => some content
  | _ => none

/-- Source WorkbenchStore.setCurrentDocumentContent (workbench.ts:194-225).
The guard `if (!filePath) return` is JS-falsy: it returns early both when
there is no current document and when the current document's path is the
empty string. -/
def setCurrentDocumentContent (s : WorkbenchState) (newContent : String) : WorkbenchState :=
  match currentDocument s with
  | none => s
  | some doc =>
    if doc.filePath = "" then s
    else
      let filePath := doc.filePath
      let originalContent := getFileContent s.files filePath
      let unsavedChanges : Bool :=
        originalContent.isSome && decide (originalContent ≠ some newContent)
      let s1 := updateFile s filePath newContent
      match currentDocument s1 with
      | none => s1
      | some cd =>
        if unsavedChanges && decide (cd.filePath ∈ s1.unsavedFiles) then s1
        else if unsavedChanges then
          { s1 with unsavedFiles := setAdd s1.unsavedFiles cd.filePath }
        else
          { s1 with unsavedFiles := setDelete s1.unsavedFiles cd.filePath }

/-- Modelled from the spec: `FilesStore.saveFile` commits edit-buffer content
into the FileMap for the given path (the in-memory write cannot fail). -/
def filesStoreSaveFile (files : List (String × Dirent)) (filePath content : String) :
    List (String × Dirent) :=
  match getKey files filePath with
  | some (Dirent.file _ b) => setKey files filePath (Dirent.file content b)
  | _ => setKey files filePath (Dirent.file content false)

/-- Source WorkbenchStore.saveFile (workbench.ts:243-257). -/
def saveFile (s : WorkbenchState) (filePath : String) : WorkbenchState :=
  match getKey s.documents filePath with
  | none => s
  | some v =>
    { s with
      files := filesStoreSaveFile s.files filePath v
      unsavedFiles := setDelete s.unsavedFiles filePath }

/-- The runner a fresh artifact is created with (`new ActionRunner(...)`). -/
def emptyRunner : ActionRunner := ⟨[], []⟩

/-- Source WorkbenchStore.#getArtifact. -/
def getArtifact (s : WorkbenchState) (id : String) : Option ArtifactState :=
  getKey s.artifacts id

/-- Source WorkbenchStore.addArtifact (workbench.ts:304-321). -/
def addArtifact (s : WorkbenchState) (d : ArtifactCallbackData) : WorkbenchState :=
  match getArtifact s d.messageId with
  | some _ => s
  | none =>
    let ids :=
      if d.messageId ∈ s.artifactIdList then s.artifactIdList
      else s.artifactIdList ++ [d.messageId]
    { s with
      artifactIdList := ids
      artifacts := setKey s.artifacts d.messageId ⟨d.id, d.title, false, emptyRunner⟩ }

/-- Source Partial<ArtifactUpdateState>: an optional title and an optional closed
flag, absent fields do not override. -/
structure ArtifactUpdate where
  title : Option String
  closed : Option Bool
deriving DecidableEq

/-- Source WorkbenchStore.updateArtifact (workbench.ts:323-331): spread-merge of
the partial state over the existing artifact. -/
def updateArtifact (s : WorkbenchState) (messageId : String) (st : ArtifactUpdate) :
    WorkbenchState :=
  match getArtifact s messageId with
  | none => s
  | some a =>
    { s with
      artifacts := setKey s.artifacts messageId
        ⟨a.id, st.title.getD a.title, st.closed.getD a.closed, a.runner⟩ }

/-- Runner delegation for `addAction`: enqueue. -/
def runnerAddAction (r : ActionRunner) (d : ActionCallbackData) : ActionRunner :=
  { r with queued := r.queued ++ [d] }

/-- Runner delegation for `runAction`: execute. -/
def runnerRunAction (r : ActionRunner) (d : ActionCallbackData) : ActionRunner :=
  { r with executed := r.executed ++ [d] }

/-- Source WorkbenchStore.addAction (workbench.ts:333-343); the
`unreachable('Artifact not found')` assertion is the `error` case. -/
def addAction (s : WorkbenchState) (d : ActionCallbackData) :
    Except String WorkbenchState :=
  match getArtifact s d.messageId with
  | none => Except.error "Artifact not found"
  | some a =>
    Except.ok
      { s with
        artifacts := setKey s.artifacts d.messageId
          { a with runner := runnerAddAction a.runner d } }

/-- Source WorkbenchStore.runAction (workbench.ts:345-355). -/
def runAction (s : WorkbenchState) (d : ActionCallbackData) :
    Except String WorkbenchState :=
  match getArtifact s d.messageId with
  | none => Except.error "Artifact not found"
  | some a =>
    Except.ok
      { s with
        artifacts := setKey s.artifacts d.messageId
          { a with runner := runnerRunAction a.runner d } }

/-! ## Download and upload (`workbench.ts`) -/

/-- The fixed project root `/home/project/` as a character list. -/
def projectRoot : List Char := "/home/project/".data

/-- The regex replace `^\/home\/project\//` applied once: strip the fixed
project-root chars when they lead the path. -/
def stripProjectRoot (p : String) : String :=
  if projectRoot.isPrefixOf p.data then String.mk (p.data.drop projectRoot.length) else p

/-- Source WorkbenchStore.downloadZip (workbench.ts:362-390), with the JSZip
archive modelled as a list of entries.  An entry's position in the archive
tree is its list of path segments: the source either walks
`folder(seg)` for every segment but the last and then writes the leaf
file, or writes a single-segment file at the root, and in both cases the
resulting archive entry sits at the full segment path. -/
def downloadZipStep (zip : List (List String × String)) (e : String × Dirent) :
    List (List String × String) :=
  match e.2 with
  | Dirent.folder => zip
  | Dirent.file content isBinary =>
    if isBinary then zip
    else
      let relativePath := stripProjectRoot e.1
      let pathSegments := (splitOnChar '/' relativePath.data).map String.mk
      zip ++ [(pathSegments, content)]

def downloadZip (files : List (String × Dirent)) : List (List String × String) :=
  files.foldl downloadZipStep []

/-- The claim's description of the archive: exactly the non-binary file
entries of the FileMap, each at its prefix-stripped path with its stored
content; binary files and directory entries excluded. -/
def zipSpecEntries (files : List (String × Dirent)) : List (List String × String) :=
  files.filterMap
    (fun e =>
      match e.2 with
      | Dirent.file content false =>
        some ((splitOnChar '/' (stripProjectRoot e.1).data).map String.mk, content)
      | _ => none)

/-- One entry of an uploaded archive, as produced by the archive-codec
oracle (spec section 6 treats the ZIP and RAR codecs as
`(bytes) -> [(path, content)]` oracles). -/
structure ArchiveEntry where
  name : String
  isDir : Bool
  content : String
deriving DecidableEq

/-- An uploaded file: its name plus the entries its bytes decode to. -/
structure UploadedFile where
  name : String
  entries : List ArchiveEntry
deriving DecidableEq

/-- Source WorkbenchStore.#extractZipFile: every non-directory entry is written
into the FileMap at `/home/project/<relative path>` and selected. -/
def extractZipFile (s : WorkbenchState) (entries : List ArchiveEntry) : WorkbenchState :=
  entries.foldl
    (fun st e =>
      if e.isDir then st
      else
        let filePath := "/home/project/" ++ e.name
        { st with
          files := setKey st.files filePath (Dirent.file e.content false)
          selectedFile := some filePath })
    s

/-- Source WorkbenchStore.#extractRarFile: same FileMap-population behaviour as
the ZIP path, driven by the RAR extractor's entries. -/
def extractRarFile (s : WorkbenchState) (entries : List ArchiveEntry) : WorkbenchState :=
  entries.foldl
    (fun st e =>
      if e.isDir then st
      else
        let filePath := "/home/project/" ++ e.name
        { st with
          files := setKey st.files filePath (Dirent.file e.content false)
          selectedFile := some filePath })
    s

/-- Source WorkbenchStore.handleProjectUpload (workbench.ts:447-453): dispatch on
the file-name extension; anything that is neither `.zip` nor `.rar` falls
through both branches. -/
def handleProjectUpload (s : WorkbenchState) (file : UploadedFile) : WorkbenchState :=
  if jsEndsWith file.name ".zip" then extractZipFile s file.entries
  else if jsEndsWith file.name ".rar" then extractRarFile s file.entries
  else s

/-! ## Persistence layer (`db.ts`) -/

/-- A persisted chat record (`ChatHistoryItem`). -/
structure ChatHistoryItem where
  id : String
  urlId : Option String
  messages : List String
  description : Option String
  timestamp : String
deriving DecidableEq

/-- The engine's primary-key point lookup `store.get(key)` on the `chats`
collection (keys are unique, so the first match is the match). -/
def storeGet (db : List ChatHistoryItem) (key : String) : Option ChatHistoryItem :=
  db.find? (fun r => decide (r.id = key))

/-- The engine's unique-index lookup `store.index('urlId').get(key)`:
records without a `urlId` are absent from the index. -/
def urlIdIndexGet (db : List ChatHistoryItem) (key : String) : Option ChatHistoryItem :=
  db.find? (fun r => decide (r.urlId = some key))

/-- Source getMessagesById (db.ts:97-118): an empty `chatId` is rejected with
`Invalid chatId`; otherwise the point lookup resolves, with `none` for a
missing record. -/
def getMessagesById (db : List ChatHistoryItem) (chatId : String) :
    Except String (Option ChatHistoryItem) :=
  if chatId = "" then Except.error "Invalid chatId"
  else Except.ok (storeGet db chatId)

/-- Source getMessagesByUrlId (db.ts:85-95). -/
def getMessagesByUrlId (db : List ChatHistoryItem) (id : String) :
    Except String (Option ChatHistoryItem) :=
  Except.ok (urlIdIndexGet db id)

/-- Source getMessages (db.ts:81-83): `byId || byUrlId`, where a rejection of the
first awaited promise propagates. -/
def getMessages (db : List ChatHistoryItem) (id : String) :
    Except String (Option ChatHistoryItem) :=
  match getMessagesById db id with
  | Except.error e => Except.error e
  | Except.ok (some r) => Except.ok (some r)
  | Except.ok none => getMessagesByUrlId db id

/-- Value of a list of decimal digit characters, most significant first. -/
def digitsVal (cs : List Char) : Nat :=
  cs.foldl (fun a c => 10 * a + (c.toNat - 48)) 0

/-- An ASCII decimal digit, by character code. -/
def jsDigit (c : Char) : Bool :=
  decide (48 ≤ c.toNat) && decide (c.toNat ≤ 57)

/-- The value fragment of JS unary-plus `ToNumber` the theorems rely on:
the empty string coerces to `0` and a string of decimal digits to its
exact value (faithful to JS for integers below 2^53, where doubles are
exact); every other shape is mapped to `none`.  JS-numeric strings of
other shapes (signs, fractions, exponents, padding whitespace, hex) lie
outside this fragment, so the theorems quantify only over inputs on which
the fragment agrees with JS: value clauses restrict keys to digit strings
of at most 15 digits, and NaN clauses detect non-numeric keys with the
full `jsNumeric` recognizer, for which `none` here coincides with NaN. -/
def jsToNumber (s : String) : Option Nat :=
  if s.data = [] then some 0
  else if s.data.all jsDigit then some (digitsVal s.data) else none

/-- The code points of ECMA-262 StrWhiteSpace, stripped by `ToNumber`
before parsing (tab through carriage return, space, NBSP, the Unicode
space separators, line and paragraph separators, and the BOM). -/
def jsWhitespaceCodes : List Nat :=
  [9, 10, 11, 12, 13, 32, 160, 5760, 8192, 8193, 8194, 8195, 8196, 8197, 8198,
   8199, 8200, 8201, 8202, 8232, 8233, 8239, 8287, 12288, 65279]

/-- Whether a character is ECMA StrWhiteSpace. -/
def jsWhitespace (c : Char) : Bool :=
  decide (c.toNat ∈ jsWhitespaceCodes)

/-- Strip ECMA StrWhiteSpace from both ends, as `ToNumber` does. -/
def trimJs (cs : List Char) : List Char :=
  ((cs.dropWhile jsWhitespace).reverse.dropWhile jsWhitespace).reverse

/-- A nonempty run of decimal digits. -/
def decDigitsNonempty (cs : List Char) : Bool :=
  decide (cs ≠ []) && cs.all jsDigit

/-- An optionally signed nonempty digit run (the exponent body). -/
def parseSignedDigits : List Char → Bool
  | [] => false
  | c :: rest =>
    if c = '+' || c = '-' then decDigitsNonempty rest
    else decDigitsNonempty (c :: rest)

/-- The tail after a mantissa: either nothing or an `e`/`E` exponent. -/
def parseExpPart : List Char → Bool
  | [] => true
  | c :: rest => (c = 'e' || c = 'E') && parseSignedDigits rest

/-- An unsigned decimal mantissa with optional fraction and exponent:
`Digits [. Digits?] Exp?` or `. Digits Exp?`. -/
def parseMantissaExp (cs : List Char) : Bool :=
  let intPart := cs.takeWhile jsDigit
  let rest := cs.dropWhile jsDigit
  match rest with
  | '.' :: rest2 =>
    let fracPart := rest2.takeWhile jsDigit
    let rest3 := rest2.dropWhile jsDigit
    (decide (intPart ≠ []) || decide (fracPart ≠ [])) && parseExpPart rest3
  | _ => decide (intPart ≠ []) && parseExpPart rest

/-- An unsigned StrDecimalLiteral: Infinity or a decimal mantissa. -/
def unsignedNumericLit (cs : List Char) : Bool :=
  if cs = "Infinity".data then true else parseMantissaExp cs

/-- A StrDecimalLiteral with its optional sign. -/
def signedNumericLit : List Char → Bool
  | [] => false
  | c :: rest =>
    if c = '+' || c = '-' then unsignedNumericLit rest
    else unsignedNumericLit (c :: rest)

/-- A hexadecimal digit. -/
def jsHexDigit (c : Char) : Bool :=
  jsDigit c || (decide (97 ≤ c.toNat) && decide (c.toNat ≤ 102)) ||
    (decide (65 ≤ c.toNat) && decide (c.toNat ≤ 70))

/-- An unsigned non-decimal integer literal: `0x`, `0o` or `0b` forms
(signs are not allowed on these in `ToNumber`). -/
def nonDecNumericLit : List Char → Bool
  | '0' :: x :: rest =>
    if x = 'x' || x = 'X' then decide (rest ≠ []) && rest.all jsHexDigit
    else if x = 'o' || x = 'O' then
      decide (rest ≠ []) && rest.all (fun c => decide (48 ≤ c.toNat) && decide (c.toNat ≤ 55))
    else if x = 'b' || x = 'B' then
      decide (rest ≠ []) && rest.all (fun c => c = '0' || c = '1')
    else false
  | _ => false

/-- Faithful recognizer of the strings whose JS `ToNumber` is not NaN:
trim StrWhiteSpace, accept the empty remainder (0), an optionally signed
decimal literal or Infinity, or an unsigned hex/octal/binary literal. -/
def jsNumeric (s : String) : Bool :=
  let cs := trimJs s.data
  if cs = [] then true else signedNumericLit cs || nonDecNumericLit cs

/-- A key made only of decimal digits, short enough (at most 15 digits)
that its value and its successor are exactly representable as JS doubles,
so the model's exact Nat arithmetic agrees with the program. -/
def smallDigitKey (s : String) : Bool :=
  s.data.all jsDigit && decide (s.data.length ≤ 15)

/-- JS `Math.max` on possibly-NaN numbers: NaN absorbs. -/
def jsMax : Option Nat → Option Nat → Option Nat
  | some a, some b => some (max a b)
  | _, _ => none

/-- Source getNextId (db.ts:131-144): reduce the coerced primary keys with
`Math.max` starting from `0`, then render `highest + 1`; `String(NaN)` is
`"NaN"`. -/
def getNextId (keys : List String) : String :=
  match keys.foldl (fun cur k => jsMax cur (jsToNumber k)) (some 0) with
  | some n => Nat.repr (n + 1)
  | none => "NaN"

/-- The max of the numerically-coercible keys, as the spec describes it
(non-numeric keys ignored). -/
def maxNumericKey (keys : List String) : Nat :=
  keys.foldl (fun m k => max m ((jsToNumber k).getD 0)) 0

/-- The probed slug `` `${id}-${i}` ``. -/
def slug (id : String) (i : Nat) : String :=
  id ++ "-" ++ Nat.repr i

/-- The `while (idList.includes(...)) i++` probe of `getUrlId`, with
explicit fuel; `idList.length + 1` steps provably suffice
(`probeLoop_fuel_sufficient`), so the fuel never runs out on the calls the
code makes. -/
def probeLoop (idList : List String) (id : String) : Nat → Nat → Nat
  | 0, i => i
  | fuel + 1, i => if slug id i ∈ idList then probeLoop idList id fuel (i + 1) else i

/-- Source getUrlId (db.ts:189-203) over an already-scanned url-id list: return
the candidate unchanged when unused, otherwise probe `-2`, `-3`, … -/
def getUrlId (idList : List String) (id : String) : String :=
  if id ∈ idList then slug id (probeLoop idList id (idList.length + 1) 2) else id

/-- Source getUrlIds (db.ts:205-230): the cursor scan pushes `cursor.value.urlId`
only when it is truthy, so both missing and empty url-ids are skipped. -/
def getUrlIds (db : List ChatHistoryItem) : List String :=
  db.filterMap
    (fun r =>
      match r.urlId with
      | some u => if u = "" then none else some u
      | none => none)

/-- Source getUrlId against the stored records, composing the cursor scan with
the probe. -/
def getUrlIdDb (db : List ChatHistoryItem) (id : String) : String :=
  getUrlId (getUrlIds db) id

/-- Candidate `u` is used as a `urlId` by some stored record. -/
def urlIdUsed (db : List ChatHistoryItem) (u : String) : Prop :=
  ∃ r ∈ db, r.urlId = some u

/-- The url-id list after `n` repeated `getUrlId` calls for the same
candidate, each returned slug being stored before the next call. -/
def urlIdTrace (idList : List String) (id : String) : Nat → List String
  | 0 => idList
  | n + 1 =>
    let t := urlIdTrace idList id n
    t ++ [getUrlId t id]

/-- Read a digit string back into a number (used to show that decimal
rendering is injective). -/
def readDigits : Nat → List Char → Nat
  | a, [] => a
  | a, c :: cs => readDigits (10 * a + (c.toNat - 48)) cs

/-! ## Helper lemmas -/

theorem getKey_setKey_self {α : Type} (m : List (String × α)) (k : String) (v : α) :
    getKey (setKey m k v) k = some v := by
  induction m with
  | nil => simp [setKey, getKey]
  | cons e es ih =>
    by_cases h : e.1 = k
    · simp [setKey, getKey, h]
    · simp [setKey, getKey, h, ih]

theorem getKey_setKey_ne {α : Type} (m : List (String × α)) (k k' : String) (v : α)
    (h : k' ≠ k) : getKey (setKey m k v) k' = getKey m k' := by
  induction m with
  | nil =>
    simp only [setKey, getKey]
    rw [if_neg (fun hc => h hc.symm)]
  | cons e es ih =>
    by_cases he : e.1 = k
    · simp [setKey, getKey, he, Ne.symm h, h]
    · by_cases he' : e.1 = k'
      · simp [setKey, getKey, he, he', h]
      · simp [setKey, getKey, he, he', ih]

theorem setKey_of_getKey_none {α : Type} (m : List (String × α)) (k : String) (v : α)
    (h : getKey m k = none) : setKey m k v = m ++ [(k, v)] := by
  induction m with
  | nil => simp [setKey]
  | cons e es ih =>
    by_cases he : e.1 = k
    · simp [getKey, he] at h
    · simp [getKey, he] at h
      simp [setKey, he, ih h]

theorem countP_key_eq_zero {α : Type} (m : List (String × α)) (k : String)
    (h : getKey m k = none) : m.countP (fun e => decide (e.1 = k)) = 0 := by
  induction m with
  | nil => simp
  | cons e es ih =>
    by_cases he : e.1 = k
    · simp [getKey, he] at h
    · simp [getKey, he] at h
      rw [List.countP_cons]
      simp [he, ih h]

theorem mem_setAdd_self (l : List String) (x : String) : x ∈ setAdd l x := by
  unfold setAdd
  split
  · assumption
  · simp

theorem not_mem_setDelete_self (l : List String) (x : String) : x ∉ setDelete l x := by
  simp [setDelete, List.mem_filter]

theorem currentDocument_elim (s : WorkbenchState) (p v : String)
    (h : currentDocument s = some ⟨p, v⟩) :
    s.selectedFile = some p ∧ getKey s.documents p = some v := by
  unfold currentDocument at h
  split at h
  · simp at h
  · rename_i q hq
    split at h
    · simp at h
    · rename_i w hw
      simp only [Option.some.injEq] at h
      injection h with h1 h2
      subst h1
      subst h2
      exact ⟨hq, hw⟩

theorem getFileContent_filesStoreSaveFile (files : List (String × Dirent))
    (p X : String) : getFileContent (filesStoreSaveFile files p X) p = some X := by
  unfold filesStoreSaveFile getFileContent
  cases h : getKey files p with
  | none => rw [getKey_setKey_self _ _ _]
  | some d =>
    cases d with
    | file c b => rw [getKey_setKey_self _ _ _]
    | folder => rw [getKey_setKey_self _ _ _]

theorem addArtifact_of_registered (s : WorkbenchState) (d : ArtifactCallbackData)
    (a : ArtifactState) (h : getArtifact s d.messageId = some a) :
    addArtifact s d = s := by
  have hk : getKey s.artifacts d.messageId = some a := h
  simp [addArtifact, getArtifact, hk]

/-! ## Claims -/

/-- C4: calling addAction or runAction with a messageId for which no artifact
was registered hits the fatal `unreachable('Artifact not found')` assertion
(modelled as the error outcome) rather than queueing, ignoring or
recovering; when the artifact exists, the call delegates to that artifact's
runner (the action is appended to the runner's queue, respectively its
executed list). -/
theorem addAction_runAction_artifact_required :
    (∀ s d, getArtifact s d.messageId = none →
        addAction s d = Except.error "Artifact not found" ∧
        runAction s d = Except.error "Artifact not found") ∧
    (∀ s d a, getArtifact s d.messageId = some a →
        (∃ s', addAction s d = Except.ok s' ∧
          getArtifact s' d.messageId =
            some { a with runner := ⟨a.runner.queued ++ [d], a.runner.executed⟩ }) ∧
        (∃ s', runAction s d = Except.ok s' ∧
          getArtifact s' d.messageId =
            some { a with runner := ⟨a.runner.queued, a.runner.executed ++ [d]⟩ })) := by
  constructor
  · intro s d h
    have hk : getKey s.artifacts d.messageId = none := h
    constructor
    · simp [addAction, getArtifact, hk]
    · simp [runAction, getArtifact, hk]
  · intro s d a h
    have hk : getKey s.artifacts d.messageId = some a := h
    constructor
    · simp only [addAction, getArtifact, hk]
      refine ⟨_, rfl, ?_⟩
      show getKey (setKey s.artifacts d.messageId _) d.messageId = _
      rw [getKey_setKey_self _ _ _]
      simp [runnerAddAction]
    · simp only [runAction, getArtifact, hk]
      refine ⟨_, rfl, ?_⟩
      show getKey (setKey s.artifacts d.messageId _) d.messageId = _
      rw [getKey_setKey_self _ _ _]
      simp [runnerRunAction]

/-- C4 witness: on an empty registry both calls fail fatally, and on a
registry holding an artifact for `m1` the action is delegated to its
runner. -/
theorem addAction_runAction_artifact_required_witness :
    getArtifact ⟨[], [], none, [], [], []⟩ "m1" = none ∧
    addAction ⟨[], [], none, [], [], []⟩ ⟨"m1", "cmd"⟩ = Except.error "Artifact not found" ∧
    runAction ⟨[], [], none, [], [], []⟩ ⟨"m1", "cmd"⟩ = Except.error "Artifact not found" ∧
    getArtifact ⟨[], [], none, [], [("m1", ⟨"a1", "t", false, emptyRunner⟩)], ["m1"]⟩ "m1" =
      some ⟨"a1", "t", false, emptyRunner⟩ ∧
    (∃ s', addAction ⟨[], [], none, [], [("m1", ⟨"a1", "t", false, emptyRunner⟩)], ["m1"]⟩
        ⟨"m1", "cmd"⟩ = Except.ok s' ∧
      getArtifact s' "m1" = some ⟨"a1", "t", false, ⟨[⟨"m1", "cmd"⟩], []⟩⟩) := by
  have h1 := addAction_runAction_artifact_required.1 ⟨[], [], none, [], [], []⟩ ⟨"m1", "cmd"⟩
    (by decide)
  have h2 := addAction_runAction_artifact_required.2
    ⟨[], [], none, [], [("m1", ⟨"a1", "t", false, emptyRunner⟩)], ["m1"]⟩ ⟨"m1", "cmd"⟩
    ⟨"a1", "t", false, emptyRunner⟩ (by decide)
  exact ⟨by decide, h1.1, h1.2, by decide, h2.1⟩

/-- C5: addArtifact is idempotent in its messageId: a second call with the
same messageId (even with different title or id) is a no-op, and when the
messageId was previously unregistered the single registered artifact
carries the first call's fields (first write wins), with exactly one
binding for that key in the registry. -/
theorem addArtifact_idempotent :
    (∀ s d1 d2, d2.messageId = d1.messageId →
        addArtifact (addArtifact s d1) d2 = addArtifact s d1) ∧
    (∀ s d, getArtifact s d.messageId = none →
        getArtifact (addArtifact s d) d.messageId = some ⟨d.id, d.title, false, emptyRunner⟩ ∧
        (addArtifact s d).artifacts.countP (fun e => decide (e.1 = d.messageId)) = 1) := by
  have hreg : ∀ s d, getArtifact s d.messageId = none →
      getArtifact (addArtifact s d) d.messageId = some ⟨d.id, d.title, false, emptyRunner⟩ := by
    intro s d h
    have hk : getKey s.artifacts d.messageId = none := h
    simp only [addArtifact, getArtifact, hk]
    exact getKey_setKey_self _ _ _
  constructor
  · intro s d1 d2 hm
    cases h : getArtifact s d1.messageId with
    | some a =>
      rw [addArtifact_of_registered s d1 a h]
      exact addArtifact_of_registered s d2 a (by rw [hm]; exact h)
    | none =>
      exact addArtifact_of_registered _ d2 _ (by rw [hm]; exact hreg s d1 h)
  · intro s d h
    have hk : getKey s.artifacts d.messageId = none := h
    refine ⟨hreg s d h, ?_⟩
    simp only [addArtifact, getArtifact, hk]
    rw [setKey_of_getKey_none _ _ _ hk, List.countP_append]
    rw [countP_key_eq_zero _ _ hk]
    simp [List.countP_cons]

/-- C5 witness: registering `m1` on an empty registry and re-registering it
with a different title and id leaves the first call's artifact and exactly
one binding. -/
theorem addArtifact_idempotent_witness :
    getArtifact ⟨[], [], none, [], [], []⟩ "m1" = none ∧
    addArtifact (addArtifact ⟨[], [], none, [], [], []⟩ ⟨"m1", "t1", "i1"⟩) ⟨"m1", "t2", "i2"⟩ =
      addArtifact ⟨[], [], none, [], [], []⟩ ⟨"m1", "t1", "i1"⟩ ∧
    getArtifact (addArtifact ⟨[], [], none, [], [], []⟩ ⟨"m1", "t1", "i1"⟩) "m1" =
      some ⟨"i1", "t1", false, emptyRunner⟩ ∧
    (addArtifact ⟨[], [], none, [], [], []⟩ ⟨"m1", "t1", "i1"⟩).artifacts.countP
      (fun e => decide (e.1 = "m1")) = 1 := by
  have h2 := addArtifact_idempotent.2 ⟨[], [], none, [], [], []⟩ ⟨"m1", "t1", "i1"⟩ (by decide)
  exact ⟨by decide,
    addArtifact_idempotent.1 ⟨[], [], none, [], [], []⟩ ⟨"m1", "t1", "i1"⟩ ⟨"m1", "t2", "i2"⟩ rfl,
    h2.1, h2.2⟩

/-- C8: updateArtifact with an unregistered messageId is a no-op (state
unchanged, no error), and with a registered artifact it merge-patches the
partial title and closed fields onto it, leaving id and runner (and every
other registry entry) unchanged. -/
theorem updateArtifact_merge :
    (∀ s m st, getArtifact s m = none → updateArtifact s m st = s) ∧
    (∀ s m st a, getArtifact s m = some a →
        getArtifact (updateArtifact s m st) m =
          some ⟨a.id, st.title.getD a.title, st.closed.getD a.closed, a.runner⟩ ∧
        ∀ m', m' ≠ m → getArtifact (updateArtifact s m st) m' = getArtifact s m') := by
  constructor
  · intro s m st h
    have hk : getKey s.artifacts m = none := h
    simp [updateArtifact, getArtifact, hk]
  · intro s m st a h
    have hk : getKey s.artifacts m = some a := h
    constructor
    · simp only [updateArtifact, getArtifact, hk]
      exact getKey_setKey_self _ _ _
    · intro m' hm'
      simp only [updateArtifact, getArtifact, hk]
      exact getKey_setKey_ne _ _ _ _ hm'

/-- C8 witness: updating a missing artifact changes nothing, and patching
only the closed flag of an existing artifact keeps its id, title and
runner. -/
theorem updateArtifact_merge_witness :
    getArtifact ⟨[], [], none, [], [], []⟩ "m1" = none ∧
    updateArtifact ⟨[], [], none, [], [], []⟩ "m1" ⟨some "t2", none⟩ =
      ⟨[], [], none, [], [], []⟩ ∧
    getArtifact ⟨[], [], none, [], [("m1", ⟨"a1", "t1", false, emptyRunner⟩)], ["m1"]⟩ "m1" =
      some ⟨"a1", "t1", false, emptyRunner⟩ ∧
    getArtifact
      (updateArtifact ⟨[], [], none, [], [("m1", ⟨"a1", "t1", false, emptyRunner⟩)], ["m1"]⟩
        "m1" ⟨none, some true⟩) "m1" = some ⟨"a1", "t1", true, emptyRunner⟩ := by
  have h2 := updateArtifact_merge.2
    ⟨[], [], none, [], [("m1", ⟨"a1", "t1", false, emptyRunner⟩)], ["m1"]⟩
    "m1" ⟨none, some true⟩ ⟨"a1", "t1", false, emptyRunner⟩ (by decide)
  exact ⟨by decide, updateArtifact_merge.1 ⟨[], [], none, [], [], []⟩ "m1" ⟨some "t2", none⟩
    (by decide), by decide, h2.1⟩

/-- C6: for every path with a pending editor document, updateFile followed by
saveFile commits the new content into the FileMap and removes the path from
the unsaved set; saveFile is a no-op when no pending document exists for
the path. -/
theorem saveFile_commits :
    (∀ s p X v0, getKey s.documents p = some v0 →
        getFileContent (saveFile (updateFile s p X) p).files p = some X ∧
        p ∉ (saveFile (updateFile s p X) p).unsavedFiles) ∧
    (∀ s p, getKey s.documents p = none → saveFile s p = s) := by
  constructor
  · intro s p X v0 _
    have hdoc : getKey (updateFile s p X).documents p = some X := by
      simp only [updateFile]
      exact getKey_setKey_self ..
    constructor
    · simp only [saveFile, hdoc]
      exact getFileContent_filesStoreSaveFile _ _ _
    · simp only [saveFile, hdoc]
      exact not_mem_setDelete_self _ _
  · intro s p h
    simp [saveFile, h]

/-- C6 witness: editing `/home/project/a.ts` to `"new"` and saving commits
`"new"` into the FileMap and clears the dirty flag; saving a path with no
pending document changes nothing. -/
theorem saveFile_commits_witness :
    getKey (⟨[("/home/project/a.ts", Dirent.file "old" false)],
      [("/home/project/a.ts", "old")], some "/home/project/a.ts", [], [], []⟩ :
        WorkbenchState).documents "/home/project/a.ts" = some "old" ∧
    getFileContent (saveFile (updateFile
      ⟨[("/home/project/a.ts", Dirent.file "old" false)], [("/home/project/a.ts", "old")],
        some "/home/project/a.ts", [], [], []⟩ "/home/project/a.ts" "new")
      "/home/project/a.ts").files "/home/project/a.ts" = some "new" ∧
    "/home/project/a.ts" ∉ (saveFile (updateFile
      ⟨[("/home/project/a.ts", Dirent.file "old" false)], [("/home/project/a.ts", "old")],
        some "/home/project/a.ts", [], [], []⟩ "/home/project/a.ts" "new")
      "/home/project/a.ts").unsavedFiles ∧
    getKey (⟨[], [], none, [], [], []⟩ : WorkbenchState).documents "/x" = none ∧
    saveFile ⟨[], [], none, [], [], []⟩ "/x" = ⟨[], [], none, [], [], []⟩ := by
  have h1 := saveFile_commits.1
    ⟨[("/home/project/a.ts", Dirent.file "old" false)], [("/home/project/a.ts", "old")],
      some "/home/project/a.ts", [], [], []⟩ "/home/project/a.ts" "new" "old" (by decide)
  exact ⟨by decide, h1.1, h1.2, by decide, saveFile_commits.2 ⟨[], [], none, [], [], []⟩ "/x"
    (by decide)⟩

/-- C10: for every uploaded file whose name ends in neither `.zip` nor
`.rar`, handleProjectUpload returns the state unchanged (FileMap, selected
file and unsaved set included) and raises no error. -/
theorem handleProjectUpload_non_archive (s : WorkbenchState) (file : UploadedFile)
    (hz : jsEndsWith file.name ".zip" = false) (hr : jsEndsWith file.name ".rar" = false) :
    handleProjectUpload s file = s := by
  simp [handleProjectUpload, hz, hr]

/-- C10 witness: uploading `photo.png` with a populated state leaves the
state untouched. -/
theorem handleProjectUpload_non_archive_witness :
    jsEndsWith "photo.png" ".zip" = false ∧
    jsEndsWith "photo.png" ".rar" = false ∧
    handleProjectUpload
      ⟨[("/home/project/a.ts", Dirent.file "x" false)], [("/home/project/a.ts", "x")],
        some "/home/project/a.ts", ["/home/project/a.ts"], [], []⟩
      ⟨"photo.png", [⟨"b.ts", false, "y"⟩]⟩ =
      ⟨[("/home/project/a.ts", Dirent.file "x" false)], [("/home/project/a.ts", "x")],
        some "/home/project/a.ts", ["/home/project/a.ts"], [], []⟩ :=
  ⟨by decide, by decide,
    handleProjectUpload_non_archive _ _ (by decide) (by decide)⟩

theorem currentDocument_updateFile (s : WorkbenchState) (p nc : String)
    (hsel : s.selectedFile = some p) :
    currentDocument (updateFile s p nc) = some ⟨p, nc⟩ := by
  unfold currentDocument updateFile
  simp [hsel, getKey_setKey_self]

/-- C1 counterexample: at the empty path the source's falsy guard
`if (!filePath) return` returns early, so an edit writing back the stored
content neither updates the buffer nor the unsaved set; the stale buffer
still differs from the FileMap content while the path is not in the
unsaved set, refuting the biconditional for the empty path. -/
theorem setCurrentDocumentContent_empty_path_cex :
    currentDocument ⟨[("", Dirent.file "y" false)], [("", "x")], some "", [], [], []⟩ =
      some ⟨"", "x"⟩ ∧
    getFileContent ((⟨[("", Dirent.file "y" false)], [("", "x")], some "", [], [], []⟩ :
      WorkbenchState)).files "" = some "y" ∧
    setCurrentDocumentContent
      ⟨[("", Dirent.file "y" false)], [("", "x")], some "", [], [], []⟩ "y" =
      ⟨[("", Dirent.file "y" false)], [("", "x")], some "", [], [], []⟩ ∧
    "" ∉ (setCurrentDocumentContent
      ⟨[("", Dirent.file "y" false)], [("", "x")], some "", [], [], []⟩ "y").unsavedFiles ∧
    getKey (setCurrentDocumentContent
      ⟨[("", Dirent.file "y" false)], [("", "x")], some "", [], [], []⟩ "y").documents "" ≠
      getFileContent (setCurrentDocumentContent
        ⟨[("", Dirent.file "y" false)], [("", "x")], some "", [], [], []⟩ "y").files "" :=
  ⟨by decide, by decide, by decide, by decide, by decide⟩

/-- C1 amended: after setCurrentDocumentContent runs for the current
document's nonempty path `p` (with stored FileMap content `c` for `p`),
`p` is in the unsaved set exactly when the edit-buffer content for `p`
differs from the FileMap's stored content for `p`; in particular writing
back the stored content removes `p` from the unsaved set.  (For the empty
path the falsy guard returns early and the invariant can fail, as the
counterexample shows.) -/
theorem setCurrentDocumentContent_unsaved_iff
    (s : WorkbenchState) (p v newContent c : String) (hp : p ≠ "")
    (hdoc : currentDocument s = some ⟨p, v⟩)
    (hstored : getFileContent s.files p = some c) :
    (p ∈ (setCurrentDocumentContent s newContent).unsavedFiles ↔
      getKey (setCurrentDocumentContent s newContent).documents p ≠
        getFileContent (setCurrentDocumentContent s newContent).files p) ∧
    (newContent = c → p ∉ (setCurrentDocumentContent s newContent).unsavedFiles) := by
  obtain ⟨hsel, hbuf⟩ := currentDocument_elim s p v hdoc
  have hcd1 := currentDocument_updateFile s p newContent hsel
  by_cases hc : newContent = c
  · subst hc
    simp only [setCurrentDocumentContent, hdoc, hstored, hcd1]
    simp [updateFile, getKey_setKey_self, hstored, not_mem_setDelete_self, hp]
  · by_cases hmem : p ∈ s.unsavedFiles
    · simp only [setCurrentDocumentContent, hdoc, hstored, hcd1]
      simp [updateFile, getKey_setKey_self, hstored, hmem, hc, Ne.symm hc, hp]
    · simp only [setCurrentDocumentContent, hdoc, hstored, hcd1]
      simp [updateFile, getKey_setKey_self, hstored, hmem, hc, Ne.symm hc, mem_setAdd_self, hp]

/-- C1 witness: with `/home/project/a.ts` open and stored as `"old"`, an
edit to `"new"` marks it unsaved, and the iff instance holds. -/
theorem setCurrentDocumentContent_unsaved_iff_witness :
    currentDocument ⟨[("/home/project/a.ts", Dirent.file "old" false)],
      [("/home/project/a.ts", "old")], some "/home/project/a.ts", [], [], []⟩ =
      some ⟨"/home/project/a.ts", "old"⟩ ∧
    getFileContent (⟨[("/home/project/a.ts", Dirent.file "old" false)],
      [("/home/project/a.ts", "old")], some "/home/project/a.ts", [], [], []⟩ :
        WorkbenchState).files "/home/project/a.ts" = some "old" ∧
    "/home/project/a.ts" ∈ (setCurrentDocumentContent
      ⟨[("/home/project/a.ts", Dirent.file "old" false)], [("/home/project/a.ts", "old")],
        some "/home/project/a.ts", [], [], []⟩ "new").unsavedFiles := by
  have h := setCurrentDocumentContent_unsaved_iff
    ⟨[("/home/project/a.ts", Dirent.file "old" false)], [("/home/project/a.ts", "old")],
      some "/home/project/a.ts", [], [], []⟩
    "/home/project/a.ts" "old" "new" "old" (by decide) (by decide) (by decide)
  exact ⟨by decide, by decide, h.1.mpr (by decide)⟩

theorem foldl_downloadZipStep (files : List (String × Dirent)) :
    ∀ acc, files.foldl downloadZipStep acc = acc ++ zipSpecEntries files := by
  induction files with
  | nil => intro acc; simp [zipSpecEntries]
  | cons e es ih =>
    intro acc
    rw [List.foldl_cons, ih]
    cases hd : e.2 with
    | folder => simp [downloadZipStep, zipSpecEntries, hd]
    | file content isBinary =>
      cases isBinary with
      | true => simp [downloadZipStep, zipSpecEntries, hd]
      | false => simp [downloadZipStep, zipSpecEntries, hd]

/-- C9: downloadZip serializes exactly the non-binary file entries of the
FileMap, each archived at its path with the fixed `/home/project/` root
stripped and the remaining segment structure preserved, with content equal
to the FileMap content; binary files and folder entries are excluded.  On
the claim's example FileMap the archive holds exactly `src/a.ts` with
`"x"` and `README.md` with `"y"`. -/
theorem downloadZip_entries :
    (∀ files, downloadZip files = zipSpecEntries files) ∧
    downloadZip [("/home/project/src/a.ts", Dirent.file "x" false),
        ("/home/project/README.md", Dirent.file "y" false)] =
      [(["src", "a.ts"], "x"), (["README.md"], "y")] := by
  constructor
  · intro files
    rw [downloadZip, foldl_downloadZipStep]
    simp
  · decide

/-- C7 counterexample: at the empty id the point lookup does not resolve
with an absent result — it rejects with `Invalid chatId`, even though no
record matches. -/
theorem getMessagesById_empty_id_cex :
    getMessagesById [] "" = Except.error "Invalid chatId" ∧
    (Except.error "Invalid chatId" : Except String (Option ChatHistoryItem)) ≠
      Except.ok none :=
  ⟨rfl, fun h => Except.noConfusion h⟩

/-- C7 amended: for every nonempty id string the point lookups resolve with
the matching record, or with an absent result when no record matches,
without raising; getMessages prefers the primary-id match and falls back
to the urlId match.  (For the empty string, getMessagesById rejects with
`Invalid chatId`.) -/
theorem getMessages_lookup_amended :
    ∀ db id, id ≠ "" →
      getMessagesById db id = Except.ok (storeGet db id) ∧
      getMessagesByUrlId db id = Except.ok (urlIdIndexGet db id) ∧
      (∀ r, storeGet db id = some r → r ∈ db ∧ r.id = id ∧
        getMessages db id = Except.ok (some r)) ∧
      (storeGet db id = none → (∀ r ∈ db, r.id ≠ id) ∧
        getMessages db id = Except.ok (urlIdIndexGet db id)) ∧
      (∀ r, urlIdIndexGet db id = some r → r ∈ db ∧ r.urlId = some id) ∧
      (urlIdIndexGet db id = none → ∀ r ∈ db, r.urlId ≠ some id) := by
  intro db id hid
  refine ⟨by simp [getMessagesById, hid], rfl, ?_, ?_, ?_, ?_⟩
  · intro r hr
    have hr' : db.find? (fun x => decide (x.id = id)) = some r := hr
    refine ⟨List.mem_of_find?_eq_some hr', ?_, ?_⟩
    · have := List.find?_some hr'
      simpa using this
    · simp [getMessages, getMessagesById, hid, hr]
  · intro hnone
    have hnone' : db.find? (fun x => decide (x.id = id)) = none := hnone
    constructor
    · intro r hr
      have := List.find?_eq_none.mp hnone' r hr
      simpa using this
    · simp [getMessages, getMessagesById, hid, hnone, getMessagesByUrlId]
  · intro r hr
    have hr' : db.find? (fun x => decide (x.urlId = some id)) = some r := hr
    refine ⟨List.mem_of_find?_eq_some hr', ?_⟩
    have := List.find?_some hr'
    simpa using this
  · intro hnone r hr
    have hnone' : db.find? (fun x => decide (x.urlId = some id)) = none := hnone
    have := List.find?_eq_none.mp hnone' r hr
    simpa using this

/-- C7 witness: on a one-record store, looking up the record's id resolves
with it through both getMessagesById and getMessages. -/
theorem getMessages_lookup_amended_witness :
    ("42" : String) ≠ "" ∧
    getMessagesById [⟨"42", some "u", [], none, "t"⟩] "42" =
      Except.ok (some ⟨"42", some "u", [], none, "t"⟩) ∧
    getMessages [⟨"42", some "u", [], none, "t"⟩] "42" =
      Except.ok (some ⟨"42", some "u", [], none, "t"⟩) := by
  have h := getMessages_lookup_amended [⟨"42", some "u", [], none, "t"⟩] "42" (by decide)
  refine ⟨by decide, ?_, (h.2.2.1 ⟨"42", some "u", [], none, "t"⟩ rfl).2.2⟩
  rw [h.1]
  exact congrArg Except.ok (by decide)

theorem foldl_jsMax_none (keys : List String) :
    keys.foldl (fun cur k => jsMax cur (jsToNumber k)) none = none := by
  induction keys with
  | nil => rfl
  | cons k ks ih =>
    rw [List.foldl_cons]
    have h : jsMax none (jsToNumber k) = none := by cases jsToNumber k <;> rfl
    rw [h, ih]

theorem foldl_jsMax_numeric (keys : List String) :
    ∀ a, (∀ k ∈ keys, (jsToNumber k).isSome) →
      keys.foldl (fun cur k => jsMax cur (jsToNumber k)) (some a) =
        some (keys.foldl (fun m k => max m ((jsToNumber k).getD 0)) a) := by
  induction keys with
  | nil => intro a _; rfl
  | cons k ks ih =>
    intro a h
    have hk := h k (List.mem_cons_self k ks)
    obtain ⟨b, hb⟩ := Option.isSome_iff_exists.mp hk
    rw [List.foldl_cons, List.foldl_cons, hb]
    show ks.foldl _ (some (max a b)) = _
    rw [ih (max a b) (fun k' hk' => h k' (List.mem_cons_of_mem _ hk'))]
    simp

theorem foldl_jsMax_nan (keys : List String) :
    ∀ a, (∃ k ∈ keys, jsToNumber k = none) →
      keys.foldl (fun cur k => jsMax cur (jsToNumber k)) (some a) = none := by
  induction keys with
  | nil => intro a h; simp at h
  | cons k ks ih =>
    intro a h
    rw [List.foldl_cons]
    cases hk : jsToNumber k with
    | none =>
      show ks.foldl _ (jsMax (some a) none) = none
      exact foldl_jsMax_none ks
    | some b =>
      obtain ⟨k', hk', hnone⟩ := h
      rcases List.mem_cons.mp hk' with heq | hmem
      · subst heq
        rw [hk] at hnone
        exact absurd hnone (by simp)
      · show ks.foldl _ (jsMax (some a) (some b)) = none
        exact ih (max a b) ⟨k', hmem, hnone⟩

theorem jsDigit_not_whitespace (c : Char) (h : jsDigit c = true) :
    jsWhitespace c = false := by
  simp only [jsDigit, Bool.and_eq_true, decide_eq_true_eq] at h
  simp only [jsWhitespace, jsWhitespaceCodes, decide_eq_false_iff_not]
  intro hmem
  simp only [List.mem_cons, List.not_mem_nil, or_false] at hmem
  omega

theorem dropWhile_of_forall_false {α : Type} (p : α → Bool) (l : List α)
    (h : ∀ x ∈ l, p x = false) : l.dropWhile p = l := by
  cases l with
  | nil => rfl
  | cons x xs => simp [List.dropWhile_cons, h x (List.mem_cons_self x xs)]

theorem takeWhile_of_forall_true {α : Type} (p : α → Bool) :
    ∀ l : List α, (∀ x ∈ l, p x = true) → l.takeWhile p = l := by
  intro l
  induction l with
  | nil => intro _; rfl
  | cons x xs ih =>
    intro h
    simp [List.takeWhile_cons, h x (List.mem_cons_self x xs),
      ih (fun y hy => h y (List.mem_cons_of_mem _ hy))]

theorem dropWhile_of_forall_true {α : Type} (p : α → Bool) :
    ∀ l : List α, (∀ x ∈ l, p x = true) → l.dropWhile p = [] := by
  intro l
  induction l with
  | nil => intro _; rfl
  | cons x xs ih =>
    intro h
    simp [List.dropWhile_cons, h x (List.mem_cons_self x xs),
      ih (fun y hy => h y (List.mem_cons_of_mem _ hy))]

theorem trimJs_of_digits (cs : List Char) (h : ∀ c ∈ cs, jsDigit c = true) :
    trimJs cs = cs := by
  unfold trimJs
  rw [dropWhile_of_forall_false _ cs (fun c hc => jsDigit_not_whitespace c (h c hc))]
  rw [dropWhile_of_forall_false _ cs.reverse
    (fun c hc => jsDigit_not_whitespace c (h c (List.mem_reverse.mp hc)))]
  exact List.reverse_reverse cs

theorem signedNumericLit_of_digits (c : Char) (rest : List Char)
    (h : ∀ x ∈ c :: rest, jsDigit x = true) : signedNumericLit (c :: rest) = true := by
  have hc := h c (List.mem_cons_self c rest)
  have hplus : c ≠ '+' := by
    intro he
    subst he
    exact absurd hc (by decide)
  have hminus : c ≠ '-' := by
    intro he
    subst he
    exact absurd hc (by decide)
  have hsign : (c = '+' || c = '-') = false := by simp [hplus, hminus]
  show (if c = '+' || c = '-' then unsignedNumericLit rest
    else unsignedNumericLit (c :: rest)) = true
  rw [hsign]
  simp only [Bool.false_eq_true, if_false]
  unfold unsignedNumericLit
  by_cases hInf : c :: rest = "Infinity".data
  · simp [hInf]
  · rw [if_neg hInf]
    unfold parseMantissaExp
    rw [takeWhile_of_forall_true _ _ h, dropWhile_of_forall_true _ _ h]
    simp [parseExpPart]

theorem jsNumeric_of_digits (s : String) (h : s.data.all jsDigit = true) :
    jsNumeric s = true := by
  have hall : ∀ x ∈ s.data, jsDigit x = true := by
    intro x hx
    exact List.all_eq_true.mp h x hx
  unfold jsNumeric
  rw [trimJs_of_digits s.data hall]
  cases hcs : s.data with
  | nil => simp
  | cons c rest =>
    rw [if_neg (by simp)]
    have hall2 : ∀ x ∈ c :: rest, jsDigit x = true := by
      rw [← hcs]
      exact hall
    simp [signedNumericLit_of_digits c rest hall2]

theorem jsToNumber_none_of_not_numeric (s : String) (h : jsNumeric s = false) :
    jsToNumber s = none := by
  unfold jsToNumber
  by_cases h0 : s.data = []
  · exfalso
    have ht : jsNumeric s = true := by simp [jsNumeric, trimJs, h0]
    rw [h] at ht
    exact Bool.noConfusion ht
  · rw [if_neg h0]
    by_cases hall : s.data.all jsDigit = true
    · exact absurd (jsNumeric_of_digits s hall) (by simp [h])
    · simp only [Bool.not_eq_true] at hall
      simp [hall]

theorem jsToNumber_isSome_of_smallDigitKey (s : String) (h : smallDigitKey s = true) :
    (jsToNumber s).isSome = true := by
  simp only [smallDigitKey, Bool.and_eq_true] at h
  unfold jsToNumber
  by_cases h0 : s.data = []
  · simp [h0]
  · simp [h0, h.1]

/-- C2 counterexample: a collection with keys 3, abc, 7 yields "NaN", not
"8": the non-numeric key coerces to NaN, which propagates through Math.max
instead of being coerced to 0 and ignored. -/
theorem getNextId_nonnumeric_cex :
    getNextId ["3", "abc", "7"] = "NaN" ∧ getNextId ["3", "abc", "7"] ≠ "8" := by
  decide

/-- C2 amended: an empty collection yields "1" and keys 3, 7 yield "8";
whenever every key is a decimal-digit string of at most 15 digits (so the
values and the successor of their maximum are exactly representable JS
doubles) the result is the string form of (max numeric key) + 1; and a
non-numeric key does not coerce to 0 and get ignored: any collection
containing a key whose JS ToNumber is NaN (as recognised by the full
jsNumeric grammar) yields "NaN", because NaN absorbs Math.max. -/
theorem getNextId_spec :
    getNextId [] = "1" ∧
    getNextId ["3", "7"] = "8" ∧
    (∀ keys, (∀ k ∈ keys, smallDigitKey k = true) →
        getNextId keys = Nat.repr (maxNumericKey keys + 1)) ∧
    (∀ keys, (∃ k ∈ keys, jsNumeric k = false) → getNextId keys = "NaN") := by
  refine ⟨by decide, by decide, ?_, ?_⟩
  · intro keys h
    unfold getNextId maxNumericKey
    rw [foldl_jsMax_numeric keys 0
      (fun k hk => jsToNumber_isSome_of_smallDigitKey k (h k hk))]
  · intro keys h
    obtain ⟨k, hk, hnum⟩ := h
    unfold getNextId
    rw [foldl_jsMax_nan keys 0 ⟨k, hk, jsToNumber_none_of_not_numeric k hnum⟩]

/-- C2 witness: the digit-keys clause at keys 3, 7 and the NaN clause at
keys 3, abc. -/
theorem getNextId_spec_witness :
    getNextId ["3", "7"] = Nat.repr (maxNumericKey ["3", "7"] + 1) ∧
    getNextId ["3", "abc"] = "NaN" :=
  ⟨getNextId_spec.2.2.1 ["3", "7"] (by decide),
   getNextId_spec.2.2.2 ["3", "abc"] ⟨"abc", by decide, by decide⟩⟩

theorem toDigitsCore_append (fuel : Nat) :
    ∀ n ds, Nat.toDigitsCore 10 fuel n ds = Nat.toDigitsCore 10 fuel n [] ++ ds := by
  induction fuel with
  | zero => intro n ds; simp [Nat.toDigitsCore]
  | succ f ih =>
    intro n ds
    by_cases h : n / 10 = 0
    · simp [Nat.toDigitsCore, h]
    · have e1 : Nat.toDigitsCore 10 (f + 1) n ds =
          Nat.toDigitsCore 10 f (n / 10) (Nat.digitChar (n % 10) :: ds) := by
        simp [Nat.toDigitsCore, h]
      have e2 : Nat.toDigitsCore 10 (f + 1) n [] =
          Nat.toDigitsCore 10 f (n / 10) [Nat.digitChar (n % 10)] := by
        simp [Nat.toDigitsCore, h]
      rw [e1, e2, ih (n / 10) (Nat.digitChar (n % 10) :: ds),
        ih (n / 10) [Nat.digitChar (n % 10)]]
      simp

theorem readDigits_append (xs : List Char) :
    ∀ a ys, readDigits a (xs ++ ys) = readDigits (readDigits a xs) ys := by
  induction xs with
  | nil => intro a ys; rfl
  | cons c cs ih =>
    intro a ys
    show readDigits (10 * a + (c.toNat - 48)) (cs ++ ys) =
      readDigits (readDigits (10 * a + (c.toNat - 48)) cs) ys
    exact ih _ _

theorem digitChar_toNat (m : Nat) (h : m < 10) : (Nat.digitChar m).toNat = 48 + m := by
  interval_cases m <;> decide

theorem readDigits_toDigitsCore (fuel : Nat) :
    ∀ n, n < fuel → readDigits 0 (Nat.toDigitsCore 10 fuel n []) = n := by
  induction fuel with
  | zero => intro n h; omega
  | succ f ih =>
    intro n h
    by_cases h10 : n / 10 = 0
    · have e : Nat.toDigitsCore 10 (f + 1) n [] = [Nat.digitChar (n % 10)] := by
        simp [Nat.toDigitsCore, h10]
      rw [e]
      show 10 * 0 + ((Nat.digitChar (n % 10)).toNat - 48) = n
      rw [digitChar_toNat (n % 10) (by omega)]
      omega
    · have e : Nat.toDigitsCore 10 (f + 1) n [] =
          Nat.toDigitsCore 10 f (n / 10) [Nat.digitChar (n % 10)] := by
        simp [Nat.toDigitsCore, h10]
      rw [e, toDigitsCore_append f (n / 10) [Nat.digitChar (n % 10)], readDigits_append]
      rw [ih (n / 10) (by omega)]
      show 10 * (n / 10) + ((Nat.digitChar (n % 10)).toNat - 48) = n
      rw [digitChar_toNat (n % 10) (by omega)]
      omega

theorem stringDataAppend (s t : String) : (s ++ t).data = s.data ++ t.data := by
  cases s
  cases t
  rfl

theorem stringDataInj (s t : String) (h : s.data = t.data) : s = t := by
  cases s
  cases t
  exact congrArg String.mk h

theorem natRepr_inj : Function.Injective Nat.repr := by
  intro m n h
  have hd : Nat.toDigits 10 m = Nat.toDigits 10 n := by
    have h2 := congrArg String.data h
    simpa [Nat.repr, List.asString] using h2
  have hm : readDigits 0 (Nat.toDigits 10 m) = m := by
    unfold Nat.toDigits
    exact readDigits_toDigitsCore (m + 1) m (by omega)
  have hn : readDigits 0 (Nat.toDigits 10 n) = n := by
    unfold Nat.toDigits
    exact readDigits_toDigitsCore (n + 1) n (by omega)
  rw [hd] at hm
  exact hm.symm.trans hn

theorem slug_injective (id : String) : Function.Injective (slug id) := by
  intro a b h
  apply natRepr_inj
  apply stringDataInj
  have hd := congrArg String.data h
  simp only [slug, stringDataAppend, List.append_assoc] at hd
  exact List.append_cancel_left (List.append_cancel_left hd)

theorem slug_ne_empty (id : String) (i : Nat) : slug id i ≠ "" := by
  intro h
  have hd := congrArg List.length (congrArg String.data h)
  simp only [slug, stringDataAppend, List.length_append] at hd
  have h1 : (['-'] : List Char).length = 1 := rfl
  have h2 : (("-" : String)).data.length = 1 := rfl
  have h3 : (("" : String)).data.length = 0 := rfl
  have h4 : (([] : List Char)).length = 0 := rfl
  omega

theorem exists_fresh (l : List String) (f : Nat → String) (hf : Function.Injective f) :
    ∃ j, j ≤ l.length ∧ f j ∉ l := by
  by_contra hcon
  push_neg at hcon
  have hsub : ((List.range (l.length + 1)).map f).toFinset ⊆ l.toFinset := by
    intro x hx
    rw [List.mem_toFinset] at hx ⊢
    obtain ⟨j, hj, rfl⟩ := List.mem_map.mp hx
    exact hcon j (Nat.lt_succ_iff.mp (List.mem_range.mp hj))
  have hnd : ((List.range (l.length + 1)).map f).Nodup :=
    List.Nodup.map hf (List.nodup_range _)
  have hcard1 : ((List.range (l.length + 1)).map f).toFinset.card = l.length + 1 := by
    rw [List.toFinset_card_of_nodup hnd]
    simp
  have hcard2 := Finset.card_le_card hsub
  have hcard3 := l.toFinset_card_le
  omega

theorem probeLoop_spec (idList : List String) (id : String) :
    ∀ fuel i, (∃ j, j < fuel ∧ slug id (i + j) ∉ idList) →
      i ≤ probeLoop idList id fuel i ∧
      slug id (probeLoop idList id fuel i) ∉ idList ∧
      ∀ m, i ≤ m → m < probeLoop idList id fuel i → slug id m ∈ idList := by
  intro fuel
  induction fuel with
  | zero =>
    intro i h
    obtain ⟨j, hj, _⟩ := h
    omega
  | succ f ih =>
    intro i h
    by_cases hmem : slug id i ∈ idList
    · have e : probeLoop idList id (f + 1) i = probeLoop idList id f (i + 1) := by
        simp [probeLoop, hmem]
      obtain ⟨j, hj, hfree⟩ := h
      have hj0 : j ≠ 0 := by
        intro h0
        subst h0
        rw [Nat.add_zero] at hfree
        exact hfree hmem
      obtain ⟨j', rfl⟩ : ∃ j2, j = j2 + 1 := ⟨j - 1, by omega⟩
      have hex : ∃ j2, j2 < f ∧ slug id (i + 1 + j2) ∉ idList := by
        refine ⟨j', by omega, ?_⟩
        have harith : i + 1 + j' = i + (j' + 1) := by omega
        rw [harith]
        exact hfree
      have h3 := ih (i + 1) hex
      rw [e]
      refine ⟨by omega, h3.2.1, ?_⟩
      intro m hm1 hm2
      by_cases hmi : m = i
      · subst hmi
        exact hmem
      · exact h3.2.2 m (by omega) hm2
    · have e : probeLoop idList id (f + 1) i = i := by simp [probeLoop, hmem]
      rw [e]
      exact ⟨Nat.le_refl i, hmem,
        fun m h1 h2 => absurd h2 (Nat.not_lt.mpr h1)⟩

theorem getUrlId_mem_spec (t : List String) (id : String) (hmem : id ∈ t) :
    ∃ k, 2 ≤ k ∧ getUrlId t id = slug id k ∧ slug id k ∉ t ∧
      ∀ j, 2 ≤ j → j < k → slug id j ∈ t := by
  have hinj : Function.Injective (fun j => slug id (2 + j)) := by
    intro a b h
    have h2 := slug_injective id h
    omega
  obtain ⟨j, hj, hfree⟩ := exists_fresh t (fun j => slug id (2 + j)) hinj
  have hex : ∃ j2, j2 < t.length + 1 ∧ slug id (2 + j2) ∉ t := ⟨j, by omega, hfree⟩
  have hp := probeLoop_spec t id (t.length + 1) 2 hex
  refine ⟨probeLoop t id (t.length + 1) 2, hp.1, ?_, hp.2.1, fun j2 h2 hlt => hp.2.2 j2 h2 hlt⟩
  simp [getUrlId, hmem]

theorem mem_getUrlIds_iff (db : List ChatHistoryItem) (u : String) (hu : u ≠ "") :
    u ∈ getUrlIds db ↔ urlIdUsed db u := by
  unfold getUrlIds urlIdUsed
  rw [List.mem_filterMap]
  constructor
  · rintro ⟨r, hr, hmatch⟩
    refine ⟨r, hr, ?_⟩
    cases hru : r.urlId with
    | none =>
      rw [hru] at hmatch
      simp at hmatch
    | some w =>
      rw [hru] at hmatch
      by_cases hw : w = ""
      · simp [hw] at hmatch
      · simp [hw] at hmatch
        rw [hmatch]
  · rintro ⟨r, hr, hru⟩
    refine ⟨r, hr, ?_⟩
    rw [hru]
    simp [hu]

theorem urlIdTrace_mono (idList : List String) (id : String) (n : Nat) :
    ∀ x ∈ urlIdTrace idList id n, x ∈ urlIdTrace idList id (n + 1) := by
  intro x hx
  show x ∈ urlIdTrace idList id n ++ [getUrlId (urlIdTrace idList id n) id]
  exact List.mem_append_left _ hx

theorem urlIdTrace_subset (idList : List String) (id : String) (m : Nat) :
    ∀ n, m ≤ n → ∀ x ∈ urlIdTrace idList id m, x ∈ urlIdTrace idList id n := by
  intro n
  induction n with
  | zero =>
    intro h x hx
    have hm : m = 0 := by omega
    rwa [hm] at hx
  | succ k ih =>
    intro h x hx
    by_cases hmk : m = k + 1
    · rwa [hmk] at hx
    · exact urlIdTrace_mono idList id k x (ih (by omega) x hx)

theorem id_mem_urlIdTrace (idList : List String) (id : String) :
    ∀ n, 1 ≤ n → id ∈ urlIdTrace idList id n := by
  intro n h
  induction n with
  | zero => omega
  | succ k ih =>
    by_cases hk : 1 ≤ k
    · exact urlIdTrace_mono idList id k id (ih hk)
    · have hk0 : k = 0 := by omega
      subst hk0
      show id ∈ idList ++ [getUrlId idList id]
      by_cases hmem : id ∈ idList
      · exact List.mem_append_left _ hmem
      · have he : getUrlId idList id = id := by simp [getUrlId, hmem]
        rw [he]
        exact List.mem_append_right _ (List.mem_singleton.mpr rfl)

theorem urlIdTrace_result_mem (idList : List String) (id : String) (m : Nat) :
    getUrlId (urlIdTrace idList id m) id ∈ urlIdTrace idList id (m + 1) := by
  show _ ∈ urlIdTrace idList id m ++ [getUrlId (urlIdTrace idList id m) id]
  exact List.mem_append_right _ (List.mem_singleton.mpr rfl)

/-- C3 counterexample: with a stored record whose urlId is the empty
string, getUrlId of the empty candidate returns the candidate unchanged
even though it is already used (the cursor scan's truthiness check skips
empty url-ids), instead of the fresh candidate-2 slug the claim
requires. -/
theorem getUrlId_empty_candidate_cex :
    (⟨"1", some "", [], none, "t"⟩ : ChatHistoryItem) ∈
      ([⟨"1", some "", [], none, "t"⟩] : List ChatHistoryItem) ∧
    (⟨"1", some "", [], none, "t"⟩ : ChatHistoryItem).urlId = some "" ∧
    getUrlIdDb [⟨"1", some "", [], none, "t"⟩] "" = "" ∧
    getUrlIdDb [⟨"1", some "", [], none, "t"⟩] "" ≠ slug "" 2 :=
  ⟨List.mem_singleton.mpr rfl, rfl, by decide, by decide⟩

/-- C3 amended: for every nonempty candidate string, getUrlId returns the
candidate itself when no stored chat record uses it as its urlId, and
otherwise candidate-k for the smallest k ≥ 2 such that candidate-k is not
used by any stored record; and for any sequence of calls with a repeated
candidate (each returned slug stored before the next call), every call
after the first returns a slug of the form candidate-k that is absent
from the current url-id list and distinct from every earlier result.
(For the empty candidate the claim fails, as the counterexample shows.) -/
theorem getUrlId_spec_amended :
    (∀ db id, id ≠ "" → ¬ urlIdUsed db id → getUrlIdDb db id = id) ∧
    (∀ db id, id ≠ "" → urlIdUsed db id →
        ∃ k, 2 ≤ k ∧ getUrlIdDb db id = slug id k ∧ ¬ urlIdUsed db (slug id k) ∧
          ∀ j, 2 ≤ j → j < k → urlIdUsed db (slug id j)) ∧
    (∀ idList id n, 1 ≤ n →
        getUrlId (urlIdTrace idList id n) id ∉ urlIdTrace idList id n ∧
        ∃ k, 2 ≤ k ∧ getUrlId (urlIdTrace idList id n) id = slug id k) ∧
    (∀ idList id m n, 1 ≤ m → m < n →
        getUrlId (urlIdTrace idList id m) id ≠ getUrlId (urlIdTrace idList id n) id) := by
  have hfreshN : ∀ (idList : List String) (id : String) (n : Nat), 1 ≤ n →
      getUrlId (urlIdTrace idList id n) id ∉ urlIdTrace idList id n ∧
      ∃ k, 2 ≤ k ∧ getUrlId (urlIdTrace idList id n) id = slug id k := by
    intro idList id n hn
    obtain ⟨k, hk2, heq, hfree, _⟩ :=
      getUrlId_mem_spec (urlIdTrace idList id n) id (id_mem_urlIdTrace idList id n hn)
    refine ⟨?_, k, hk2, heq⟩
    rw [heq]
    exact hfree
  refine ⟨?_, ?_, hfreshN, ?_⟩
  · intro db id hid hused
    have hmem : id ∉ getUrlIds db := fun h => hused ((mem_getUrlIds_iff db id hid).mp h)
    simp [getUrlIdDb, getUrlId, hmem]
  · intro db id hid hused
    have hmem : id ∈ getUrlIds db := (mem_getUrlIds_iff db id hid).mpr hused
    obtain ⟨k, hk2, heq, hfree, hbelow⟩ := getUrlId_mem_spec (getUrlIds db) id hmem
    refine ⟨k, hk2, heq, ?_, ?_⟩
    · intro hu
      exact hfree ((mem_getUrlIds_iff db (slug id k) (slug_ne_empty id k)).mpr hu)
    · intro j hj2 hjk
      exact (mem_getUrlIds_iff db (slug id j) (slug_ne_empty id j)).mp (hbelow j hj2 hjk)
  · intro idList id m n h1 hmn heq
    have hm_stored := urlIdTrace_result_mem idList id m
    have hmem_n : getUrlId (urlIdTrace idList id m) id ∈ urlIdTrace idList id n :=
      urlIdTrace_subset idList id (m + 1) n (by omega) _ hm_stored
    rw [heq] at hmem_n
    exact (hfreshN idList id n (by omega)).1 hmem_n

/-- C3 witness: an unused nonempty candidate is returned unchanged, and in
a two-call sequence starting from a list already holding the candidate the
two results differ. -/
theorem getUrlId_spec_amended_witness :
    ("chat" : String) ≠ "" ∧
    ¬ urlIdUsed [⟨"1", some "taken", [], none, "t"⟩] "chat" ∧
    getUrlIdDb [⟨"1", some "taken", [], none, "t"⟩] "chat" = "chat" ∧
    (1 : Nat) ≤ 1 ∧ (1 : Nat) < 2 ∧
    getUrlId (urlIdTrace ["chat"] "chat" 1) "chat" ≠
      getUrlId (urlIdTrace ["chat"] "chat" 2) "chat" := by
  have hnu : ¬ urlIdUsed [⟨"1", some "taken", [], none, "t"⟩] "chat" := by
    intro h
    obtain ⟨r, hr, hru⟩ := h
    rw [List.mem_singleton] at hr
    subst hr
    simp at hru
  exact ⟨by decide, hnu,
    getUrlId_spec_amended.1 [⟨"1", some "taken", [], none, "t"⟩] "chat" (by decide) hnu,
    by decide, by decide,
    getUrlId_spec_amended.2.2.2 ["chat"] "chat" 1 2 (by decide) (by decide)⟩

end Bolt
